import Mathlib

/-!
Verification development for a small Flask application (src/app.py) that
simulates a 12-lead ECG monitor.  The engine keeps a dict mapping lead names
("lead_1" .. "lead_12") to numpy arrays of 500 samples; `init_data` fills the
buffers with a sinusoid plus P/Q/R/S/T complexes, `update_data` rolls every
buffer left by 5 and appends 5 freshly synthesized samples, and the
`/update_ecg` endpoint performs one update and renders every lead.

The embedding below models:
  - machine floats by an abstract linear ordered field `R` (instantiated at
    `Rat` for concrete evaluation), with the sine function and the constant
    pi passed in as parameters `sinv` and `piv` (their numeric values never
    influence control flow, except for the spike draw which is explicit);
  - numpy arrays by `List R`; Python slice assignment including negative-index
    normalization and the shape check that makes numpy raise `ValueError` on a
    length mismatch (modelled by `Option`);
  - the seeded global random source by a stream `g : Nat -> R` together with a
    cursor `ix`: `np.random.random()` reads one raw draw, and
    `np.random.normal(0, sigma, n)` reads `n` raw draws scaled by `sigma`.
-/

set_option linter.unusedSectionVars false
set_option maxRecDepth 200000

namespace ECG

section Engine

variable {R : Type} [LinearOrderedField R] [FloorRing R]
variable (sinv : R → R) (piv : R)

/-- Model of numpy.linspace a b n with endpoint=True: n evenly spaced samples
from a to b inclusive. -/
def linspace (a b : R) (n : Nat) : List R :=
  (List.range n).map fun (j : Nat) => a + (b - a) * (j : R) / ((n : R) - 1)

/-- Python float modulo (used with a positive modulus): a % b = a - b*floor(a/b). -/
def fmod (a b : R) : R := a - b * ((⌊a / b⌋ : ℤ) : R)

/-- Key of lead i in the data dict, as built on line 15 of app.py. -/
def leadName (i : Nat) : String := "lead_" ++ toString i

/-- Characters after the first underscore; models lead.split('_')[1] for the
well-formed keys the dict actually contains. -/
def afterUnderscore : List Char → List Char
  | [] => []
  | c :: cs => if c = '_' then cs else afterUnderscore cs

/-- Decimal digit string to Nat; models int(...) applied to the digit suffix. -/
def digitsToNat (cs : List Char) : Nat :=
  cs.foldl (fun n c => n * 10 + (c.toNat - 48)) 0

/-- Models int(lead.split('_')[1]) on line 21 / line 52 of app.py. -/
def leadNumOf (lead : String) : Nat := digitsToNat (afterUnderscore lead.toList)

/-- Normalize one Python slice bound against a length (negative indices count
from the end, out-of-range bounds are clamped). -/
def pyIdx (len : Nat) (i : Int) : Nat :=
  if i < 0 then ((len : Int) + i).toNat else min i.toNat len

/-- In-place slice addition a[lo:hi] += b.  Returns none when the selected
slice and b have different lengths, which is exactly the case in which numpy
raises ValueError (shapes (n,) and (len b,) cannot be broadcast). -/
def sliceAdd (a : List R) (lo hi : Int) (b : List R) : Option (List R) :=
  let l := pyIdx a.length lo
  let u := pyIdx a.length hi
  let n := u - l
  if b.length = n then
    some (a.take l ++ ((a.drop l).take n).zipWith (· + ·) b ++ a.drop (l + n))
  else none

/-- In-place slice subtraction a[lo:hi] -= b, same shape rule as sliceAdd. -/
def sliceSub (a : List R) (lo hi : Int) (b : List R) : Option (List R) :=
  let l := pyIdx a.length lo
  let u := pyIdx a.length hi
  let n := u - l
  if b.length = n then
    some (a.take l ++ ((a.drop l).take n).zipWith (· - ·) b ++ a.drop (l + n))
  else none

/-- In-place single element subtraction a[i] -= v (none when out of range). -/
def idxSub (a : List R) (i : Nat) (v : R) : Option (List R) :=
  if h : i < a.length then some (a.set i (a.get ⟨i, h⟩ - v)) else none

/-- The engine state: the dict self.data, in insertion order. -/
structure ECGData (R : Type) where
  data : List (String × List R)
deriving DecidableEq

/-- The dict built by ECGData.__init__ on line 15 of app.py, before init_data
runs: 12 leads, each an all-zero buffer of 500 samples. -/
def initState : ECGData R :=
  ⟨(List.range 12).map fun j => (leadName (j + 1), List.replicate 500 (0 : R))⟩

/-- Per-lead waveform parameters as computed on lines 22-24 of app.py:
(frequency, amplitude, phase). -/
def initParams (num : Nat) : R × R × R :=
  (0.4 + (num : R) * 0.05, 0.5 + fmod ((num : R) * 0.1) 1, (num : R) * piv / 6)

/-- One heartbeat complex overlay, lines 31-40 of app.py: P bump, Q dip,
R spike, S dip, T bump around index i, guarded by i+15 < 500. -/
def complexAt (num : Nat) (a : List R) (i : Nat) : Option (List R) :=
  if i + 15 < 500 then do
    let a ← sliceAdd a ((i : Int) - 10) (i : Int)
      ((linspace (0 : R) piv 10).map fun t => sinv t * 0.2)
    let a ← idxSub a i (0.2 : R)
    let a ← sliceAdd a ((i : Int) + 1) ((i : Int) + 3)
      ((linspace (0 : R) 2 2).map fun t => t * (1 + ((num % 3 : Nat) : R) * 0.5))
    let a ← sliceSub a ((i : Int) + 3) ((i : Int) + 5)
      ((linspace (0.5 : R) 0 2).map fun t => t * 0.3)
    let a ← sliceAdd a ((i : Int) + 8) ((i : Int) + 15)
      ((linspace (0 : R) piv 7).map fun t => sinv t * 0.3)
    pure a
  else pure a

/-- Lines 20-43 of app.py for one lead: baseline sinusoid over
linspace(0, 10*pi, 500), the complex overlays for i in range(5, 500, 50),
then 500 Gaussian noise draws of std 0.03 (consuming draws ix..ix+499). -/
def initLead (g : Nat → R) (ix : Nat) (lead : String) : Option (List R) := do
  let num := leadNumOf lead
  let p := initParams piv num
  let base := (linspace (0 : R) (10 * piv) 500).map fun t =>
    sinv (t * p.1 + p.2.2) * p.2.1
  let a ← (List.range' 5 10 50).foldlM (complexAt sinv piv num) base
  pure (a.zipWith (· + ·) ((List.range 500).map fun j => 0.03 * g (ix + j)))

/-- The loop of init_data over the dict entries, each consuming 500 draws. -/
def initLoop (g : Nat → R) : Nat → List (String × List R) →
    Option (List (String × List R))
  | _, [] => some []
  | ix, e :: rest => do
      let b ← initLead sinv piv g ix e.1
      let r ← initLoop g (ix + 500) rest
      pure ((e.1, b) :: r)

/-- ECGData.init_data, lines 18-43 of app.py. -/
def ECGData.init_data (g : Nat → R) (ix : Nat) (s : ECGData R) :
    Option (ECGData R) :=
  (initLoop sinv piv g ix s.data).map ECGData.mk

/-- ECGData.__init__, lines 14-16 of app.py: build the dict of zero buffers,
then run init_data over it. -/
def construct (g : Nat → R) (ix : Nat) : Option (ECGData R) :=
  ECGData.init_data sinv piv g ix initState

/-- Per-lead waveform parameters as recomputed on lines 53-55 of app.py
(textually identical to lines 22-24). -/
def updParams (num : Nat) : R × R × R :=
  (0.4 + (num : R) * 0.05, 0.5 + fmod ((num : R) * 0.1) 1, (num : R) * piv / 6)

/-- Lines 58-59 of app.py: new_points = sin(x * freq + phase) * amplitude over
x = linspace(0, 2*pi, 5). -/
def updBase (num : Nat) : List R :=
  (linspace (0 : R) (2 * piv) 5).map fun t =>
    sinv (t * (updParams piv num).1 + (updParams piv num).2.2) *
      (updParams piv num).2.1

/-- The occasional R-wave spike height on line 63 of app.py. -/
def spikeMag (num : Nat) : R := 1.5 * (1 + ((num % 3 : Nat) : R) * 0.5)

/-- a[i] += v for an index always in range here (new_points[2] on line 63). -/
def addAt (a : List R) (i : Nat) (v : R) : List R := a.set i (a.getD i 0 + v)

/-- Lines 62-63 of app.py: with one uniform draw g ix, if it is below 0.1 add
the spike to new_points[2]. -/
def updSpiked (g : Nat → R) (ix : Nat) (num : Nat) : List R :=
  if g ix < 0.1 then addAt (updBase sinv piv num) 2 (spikeMag (R := R) num)
  else updBase sinv piv num

/-- Line 66 of app.py: np.random.normal(0, 0.05, 5), consuming draws
ix+1..ix+5. -/
def updNoise (g : Nat → R) (ix : Nat) : List R :=
  (List.range 5).map fun j => (0.05 : R) * g (ix + 1 + j)

/-- The five new samples one update tick appends to one lead
(lines 52-66 of app.py); the lead consumes draws ix..ix+5. -/
def newPoints (g : Nat → R) (ix : Nat) (num : Nat) : List R :=
  (updSpiked sinv piv g ix num).zipWith (· + ·) (updNoise g ix)

/-- np.roll(a, -5) on line 49 of app.py. -/
def rollLeft5 (a : List R) : List R := a.drop 5 ++ a.take 5

/-- a[-5:] = b on line 69 of app.py (buffers here always have length >= 5). -/
def setLast (a b : List R) : List R := a.take (a.length - b.length) ++ b

/-- The body of the update loop for one dict entry. -/
def updateLead (g : Nat → R) (ix : Nat) (e : String × List R) :
    String × List R :=
  (e.1, setLast (rollLeft5 e.2) (newPoints sinv piv g ix (leadNumOf e.1)))

/-- The loop of update_data over the dict entries in insertion order; each
lead consumes 6 draws (1 uniform + 5 normal). -/
def updateLoop (g : Nat → R) : Nat → List (String × List R) →
    List (String × List R)
  | _, [] => []
  | ix, e :: rest => updateLead sinv piv g ix e :: updateLoop g (ix + 6) rest

/-- The state mutation performed by ECGData.update_data, lines 45-69. -/
def ECGData.update_data (g : Nat → R) (ix : Nat) (s : ECGData R) : ECGData R :=
  ⟨updateLoop sinv piv g ix s.data⟩

/-- A reference to channel data as seen by a caller: either the engine's own
internal dict (an alias whose observed contents follow later mutations) or an
independent copy fixed at some contents. -/
inductive DataRef (R : Type) where
  | internal : DataRef R
  | copy : List (String × List R) → DataRef R

/-- Observing a reference in a given engine state. -/
def deref (s : ECGData R) : DataRef R → List (String × List R)
  | DataRef.internal => s.data
  | DataRef.copy d => d

/-- ECGData.update_data including its return value: line 71 of app.py is
return self.data, handing back the internal dict itself rather than a copy. -/
def ECGData.update_data_full (g : Nat → R) (ix : Nat) (s : ECGData R) :
    DataRef R × ECGData R :=
  (DataRef.internal, ECGData.update_data sinv piv g ix s)

/-- ECGData.get_plot_base64, lines 73-96 of app.py, at the data level: it
reads self.data[lead_key] and plots arange(len(...)) against it; the PNG and
base64 encoding are presentation glue carrying the same information.  The
method only reads the state, so the state comes back unchanged. -/
def ECGData.get_plot_base64 (s : ECGData R) (leadNum : Nat) :
    (List Nat × List R) × ECGData R :=
  let buf := (s.data.lookup (leadName leadNum)).getD []
  ((List.range buf.length, buf), s)

/-- The /update_ecg endpoint, lines 107-118 of app.py: one update_data call
(its returned reference is discarded), then get_plot_base64 for every lead
i in range(1, 13), threading the engine state through each call. -/
def update_ecg (g : Nat → R) (ix : Nat) (s : ECGData R) :
    List (String × (List Nat × List R)) × ECGData R :=
  let s1 := ECGData.update_data sinv piv g ix s
  ((List.range 12).map fun j => j + 1).foldl
    (fun acc i =>
      let pr := ECGData.get_plot_base64 acc.2 i
      (acc.1 ++ [(leadName i, pr.1)], pr.2))
    ([], s1)

/-- The list of lead keys in insertion order. -/
def officialLeads : List String := (List.range 12).map fun j => leadName (j + 1)

/-- The state invariant: exactly the 12 keys lead_1 .. lead_12, in order, and
every buffer of length exactly 500. -/
def WF (s : ECGData R) : Prop :=
  s.data.map Prod.fst = officialLeads ∧ ∀ e ∈ s.data, (e.2 : List R).length = 500

instance (s : ECGData R) : Decidable (WF s) :=
  inferInstanceAs (Decidable
    (s.data.map Prod.fst = officialLeads ∧ ∀ e ∈ s.data, (e.2 : List R).length = 500))

/-- Iterating update_data: one tick consumes 6 draws per lead. -/
def runTicks (g : Nat → R) : Nat → ECGData R → Nat → ECGData R
  | _, s, 0 => s
  | ix, s, n + 1 =>
      runTicks g (ix + 6 * s.data.length) (ECGData.update_data sinv piv g ix s) n

/-- Modelled from the spec: the per-channel waveform parameters exactly as the
spec states them, frequency = 0.4 + 0.05 id, amplitude = 0.5 + (0.1 id mod 1),
phase = id pi / 6, for comparison against the code's initParams/updParams. -/
def specParams (id : Nat) : R × R × R :=
  (0.4 + 0.05 * (id : R), 0.5 + fmod (0.1 * (id : R)) 1, (id : R) * piv / 6)

/-! Concrete instantiation at the rationals, used for explicit evaluations.
The sine function and pi only scale values, never control flow, so any
computable stand-ins work for exhibiting concrete behaviour. -/

/-- A computable stand-in for sine at the rationals. -/
def sinQ : ℚ → ℚ := fun x => x

/-- The all-zeroes random stream (every uniform draw 0 also means the spike
branch fires, since 0 < 0.1). -/
def gZero : Nat → ℚ := fun _ => 0

/-- A second stream that agrees with gZero on the first 100 draws only. -/
def gOne : Nat → ℚ := fun n => if n < 100 then 0 else 1

/-- A well-formed concrete state whose lead buffers start with 1 and continue
with 0s: the update tick visibly shifts the leading 1 away. -/
def cexState : ECGData ℚ :=
  ⟨(List.range 12).map fun j => (leadName (j + 1), (1 : ℚ) :: List.replicate 499 0)⟩

/-- A well-formed concrete state with all-ones buffers. -/
def onesState : ECGData ℚ :=
  ⟨(List.range 12).map fun j => (leadName (j + 1), List.replicate 500 (1 : ℚ))⟩

/-! Helper lemmas about one update tick. -/

theorem length_updBase (num : Nat) : (updBase sinv piv num).length = 5 := by
  rw [updBase, List.length_map, linspace, List.length_map, List.length_range]

theorem length_addAt (a : List R) (i : Nat) (v : R) :
    (addAt a i v).length = a.length := by
  simp [addAt]

theorem length_updSpiked (g : Nat → R) (ix num : Nat) :
    (updSpiked sinv piv g ix num).length = 5 := by
  rw [updSpiked]
  split
  · rw [length_addAt, length_updBase]
  · exact length_updBase sinv piv num

theorem length_updNoise (g : Nat → R) (ix : Nat) : (updNoise g ix).length = 5 := by
  simp [updNoise]

theorem length_newPoints (g : Nat → R) (ix num : Nat) :
    (newPoints sinv piv g ix num).length = 5 := by
  rw [newPoints, List.length_zipWith, length_updSpiked, length_updNoise,
    Nat.min_self]

theorem length_rollLeft5 (a : List R) : (rollLeft5 a).length = a.length := by
  simp [rollLeft5]
  omega

theorem updateLead_fst (g : Nat → R) (ix : Nat) (e : String × List R) :
    (updateLead sinv piv g ix e).1 = e.1 := rfl

theorem updateLead_snd (g : Nat → R) (ix : Nat) (e : String × List R)
    (h : e.2.length = 500) :
    (updateLead sinv piv g ix e).2 =
      e.2.drop 5 ++ newPoints sinv piv g ix (leadNumOf e.1) := by
  have hd : (e.2.drop 5).length = 495 := by simp [h]
  show setLast (rollLeft5 e.2) (newPoints sinv piv g ix (leadNumOf e.1)) = _
  rw [setLast, length_newPoints, length_rollLeft5, h,
    show (500 - 5 : ℕ) = 495 from rfl, rollLeft5, List.take_left' hd]

theorem get?_updateLoop (g : Nat → R) (ix j : Nat) (l : List (String × List R)) :
    (updateLoop sinv piv g ix l).get? j =
      (l.get? j).map (updateLead sinv piv g (ix + 6 * j)) := by
  induction l generalizing ix j with
  | nil => simp [updateLoop]
  | cons e rest ih =>
    cases j with
    | zero => simp [updateLoop]
    | succ j =>
      have harith : ix + 6 + 6 * j = ix + 6 * (j + 1) := by ring
      simp only [updateLoop, List.get?_cons_succ, ih (ix + 6) j, harith]

theorem updateLoop_map_fst (g : Nat → R) (ix : Nat) (l : List (String × List R)) :
    (updateLoop sinv piv g ix l).map Prod.fst = l.map Prod.fst := by
  induction l generalizing ix with
  | nil => rfl
  | cons e rest ih => simp [updateLoop, updateLead, ih]

theorem length_updateLoop (g : Nat → R) (ix : Nat) (l : List (String × List R)) :
    (updateLoop sinv piv g ix l).length = l.length := by
  induction l generalizing ix with
  | nil => rfl
  | cons e rest ih => simp [updateLoop, ih]

theorem updateLoop_lengths (g : Nat → R) (ix : Nat) (l : List (String × List R))
    (h : ∀ e ∈ l, (e.2 : List R).length = 500) :
    ∀ e ∈ updateLoop sinv piv g ix l, (e.2 : List R).length = 500 := by
  induction l generalizing ix with
  | nil => intro e he; simp [updateLoop] at he
  | cons a rest ih =>
    intro e he
    rw [updateLoop] at he
    rcases List.mem_cons.1 he with he | he
    · subst he
      rw [updateLead_snd sinv piv g ix a (h a (List.mem_cons_self a rest))]
      simp [length_newPoints, h a (List.mem_cons_self a rest)]
    · exact ih (ix + 6) (fun e' m => h e' (List.mem_cons_of_mem a m)) e he

theorem wf_update (g : Nat → R) (ix : Nat) (s : ECGData R) (h : WF s) :
    WF (ECGData.update_data sinv piv g ix s) := by
  refine ⟨?_, ?_⟩
  · show (updateLoop sinv piv g ix s.data).map Prod.fst = officialLeads
    rw [updateLoop_map_fst]
    exact h.1
  · exact updateLoop_lengths sinv piv g ix s.data h.2

/-- The trailing 5 samples of an updated buffer are exactly the newPoints of
its lead, read off with the draws of its slot. -/
theorem update_tail (g : Nat → R) (ix : Nat) (s : ECGData R) (hs : WF s)
    (j : Nat) (name : String) (buf : List R)
    (hj : s.data.get? j = some (name, buf)) :
    ((ECGData.update_data sinv piv g ix s).data.get? j).map (fun e => e.2.drop 495) =
      some (newPoints sinv piv g (ix + 6 * j) (leadNumOf name)) := by
  have hbuf : buf.length = 500 := hs.2 (name, buf) (List.get?_mem hj)
  have h1 : (ECGData.update_data sinv piv g ix s).data.get? j =
      some (updateLead sinv piv g (ix + 6 * j) (name, buf)) := by
    show (updateLoop sinv piv g ix s.data).get? j = _
    rw [get?_updateLoop, hj, Option.map_some']
  rw [h1, Option.map_some']
  have h2 := updateLead_snd sinv piv g (ix + 6 * j) (name, buf) hbuf
  rw [h2, List.drop_left' (by simp [hbuf])]

/-- The noise samples depend only on the five draws they read. -/
theorem updNoise_congr (g g' : Nat → R) (ix : Nat)
    (h : ∀ j, j < 5 → g (ix + 1 + j) = g' (ix + 1 + j)) :
    updNoise (R := R) g ix = updNoise g' ix := by
  rw [updNoise, updNoise]
  exact List.map_congr_left fun a ha => by rw [h a (List.mem_range.1 ha)]

/-- One lead's update depends only on the six draws of its slot. -/
theorem updateLead_congr (g g' : Nat → R) (ix : Nat) (e : String × List R)
    (h : ∀ j, j < 6 → g (ix + j) = g' (ix + j)) :
    updateLead sinv piv g ix e = updateLead sinv piv g' ix e := by
  have h0 : g ix = g' ix := by simpa using h 0 (by norm_num)
  have hn : updNoise (R := R) g ix = updNoise g' ix :=
    updNoise_congr g g' ix fun j hj => by
      have hhj := h (1 + j) (by omega)
      rw [Nat.add_assoc]
      exact hhj
  simp only [updateLead, newPoints, updSpiked]
  rw [h0, hn]

/-- A whole update tick depends only on the draws it consumes. -/
theorem updateLoop_congr (g g' : Nat → R) (ix : Nat) (l : List (String × List R))
    (h : ∀ j, j < 6 * l.length → g (ix + j) = g' (ix + j)) :
    updateLoop sinv piv g ix l = updateLoop sinv piv g' ix l := by
  induction l generalizing ix with
  | nil => rfl
  | cons e rest ih =>
    rw [updateLoop, updateLoop,
      updateLead_congr sinv piv g g' ix e (fun j hj =>
        h j (by rw [List.length_cons]; omega)),
      ih (ix + 6) (fun j hj => by
        have hhj := h (6 + j) (by rw [List.length_cons]; omega)
        rw [Nat.add_assoc]
        exact hhj)]

/-! The claims. -/

/-- C1: the claim states the initial fill completes without error and that
every array operation in ECGData.init_data is total, the error branch being
unreachable.  The code contradicts this: for every sine function, every value
of pi and every random stream, construction fails at the very first complex
(i = 5, already in lead_1), because the P-wave target slice [i-10:i] = [-5:5]
normalizes under Python negative-index rules to the empty slice from 495 to 5,
and its length 0 cannot receive the 10 P-wave samples, which is exactly the
numpy ValueError the fill raises. -/
theorem C1_construct_raises (g : Nat → R) (ix : Nat) :
    construct sinv piv g ix = none ∧
    pyIdx 500 ((5 : Int) - 10) = 495 ∧ pyIdx 500 (5 : Int) = 5 ∧
    ((linspace (0 : R) piv 10).map fun t => sinv t * 0.2).length = 10 :=
  ⟨rfl, rfl, rfl, rfl⟩

/-- C2: one update_data call advances every channel by the same k = 5: at
every position j of the dict, the new buffer keeps its name, has length 500,
its first 495 samples are the previous buffer's last 495 in order, and its
last 5 samples are the newly synthesized points of this tick. -/
theorem C2_fifo_roll (g : Nat → R) (ix : Nat) (s : ECGData R) (hs : WF s)
    (j : Nat) (name : String) (buf : List R)
    (hj : s.data.get? j = some (name, buf)) :
    ∃ buf2,
      (ECGData.update_data sinv piv g ix s).data.get? j = some (name, buf2) ∧
      buf2.length = 500 ∧
      buf2.take 495 = buf.drop 5 ∧
      buf2.drop 495 = newPoints sinv piv g (ix + 6 * j) (leadNumOf name) := by
  have hbuf : buf.length = 500 := hs.2 (name, buf) (List.get?_mem hj)
  refine ⟨buf.drop 5 ++ newPoints sinv piv g (ix + 6 * j) (leadNumOf name),
    ?_, ?_, ?_, ?_⟩
  · show (updateLoop sinv piv g ix s.data).get? j = _
    rw [get?_updateLoop, hj, Option.map_some']
    exact congrArg some (Prod.ext rfl
      (updateLead_snd sinv piv g (ix + 6 * j) (name, buf) hbuf))
  · rw [List.length_append, List.length_drop, hbuf, length_newPoints]
  · exact List.take_left' (by simp [hbuf])
  · exact List.drop_left' (by simp [hbuf])

/-- C3 (amended): the /update_ecg endpoint does not serve an unchanged
snapshot; every call mutates the engine by exactly one update_data tick and
returns data of the post-tick state, so two back-to-back calls leave the
engine two ticks ahead. -/
theorem C3_endpoint_tick_then_read (g : Nat → R) (ix ix2 : Nat) (s : ECGData R) :
    (update_ecg sinv piv g ix s).2 = ECGData.update_data sinv piv g ix s ∧
    (update_ecg sinv piv g ix2 ((update_ecg sinv piv g ix s).2)).2 =
      ECGData.update_data sinv piv g ix2 (ECGData.update_data sinv piv g ix s) :=
  ⟨rfl, rfl⟩

/-- C4 (amended): update_data hands back the engine's internal dict by
reference (line 71, return self.data), not a copy: dereferencing the returned
reference in any later engine state yields that state's current data, so a
holder of the reference observes subsequent mutations. -/
theorem C4_returns_internal_ref (g : Nat → R) (ix : Nat) (s s2 : ECGData R) :
    (ECGData.update_data_full sinv piv g ix s).1 = DataRef.internal ∧
    deref s2 (ECGData.update_data_full sinv piv g ix s).1 = s2.data :=
  ⟨rfl, rfl⟩

/-- C5: the channel invariant (exactly the 12 keys lead_1 .. lead_12, every
buffer of length 500) holds of the dict the constructor builds and is
preserved by every update_data call; moreover update_data never adds, removes
or renames a key, on any state whatsoever. -/
theorem C5_channel_invariant :
    WF (initState (R := R)) ∧
    ∀ (g : Nat → R) (ix : Nat) (s : ECGData R),
      (ECGData.update_data sinv piv g ix s).data.map Prod.fst =
        s.data.map Prod.fst ∧
      (WF s → WF (ECGData.update_data sinv piv g ix s)) := by
  refine ⟨⟨rfl, ?_⟩, fun g ix s =>
    ⟨updateLoop_map_fst sinv piv g ix s.data, wf_update sinv piv g ix s⟩⟩
  intro e he
  simp only [initState, List.mem_map] at he
  obtain ⟨j, hj, rfl⟩ := he
  simp

/-- C6: both the initial fill (lines 22-24) and the incremental step
(lines 53-55) compute the per-channel parameters by the very formulas the spec
states: frequency = 0.4 + 0.05 id, amplitude = 0.5 + (0.1 id mod 1),
phase = id pi / 6. -/
theorem C6_params_agree (id : Nat) :
    initParams (R := R) piv id = specParams piv id ∧
    updParams (R := R) piv id = specParams piv id := by
  rw [initParams, updParams, specParams, mul_comm (id : R) 0.05,
    mul_comm (id : R) 0.1]
  exact ⟨rfl, rfl⟩

/-- C7: the incremental step's spike threshold 0.1 lies in the claimed 10-20
percent band; the spike height 1.5*(1 + (id mod 3)*0.5) is positive, hence
elevated, and proportional to 1 + (id mod 3)*0.5; when the lead's uniform draw
is below the threshold exactly one of the five new samples (index 2) gets the
spike added while all others keep their baseline value; when it is not, the
samples are pure baseline; and the emitted samples are in either case the
spiked baseline plus the per-sample Gaussian noise. -/
theorem C7_spike_structure (g : Nat → R) (ix num : Nat) :
    ((1 : R) / 10 ≤ (0.1 : R) ∧ (0.1 : R) ≤ (1 : R) / 5) ∧
    0 < spikeMag (R := R) num ∧
    (g ix < 0.1 →
      (updSpiked sinv piv g ix num).get? 2 =
        ((updBase sinv piv num).get? 2).map (fun b => b + spikeMag (R := R) num) ∧
      ∀ j, j ≠ 2 →
        (updSpiked sinv piv g ix num).get? j = (updBase sinv piv num).get? j) ∧
    (¬ g ix < 0.1 → updSpiked sinv piv g ix num = updBase sinv piv num) ∧
    newPoints sinv piv g ix num =
      (updSpiked sinv piv g ix num).zipWith (· + ·) (updNoise g ix) := by
  refine ⟨⟨by norm_num, by norm_num⟩, ?_, ?_, ?_, rfl⟩
  · rw [spikeMag]
    positivity
  · intro h
    rw [updSpiked, if_pos h]
    refine ⟨rfl, ?_⟩
    intro j hj
    rcases j with _ | _ | _ | _ | _ | n
    · rfl
    · rfl
    · exact absurd rfl hj
    · rfl
    · rfl
    · rfl
  · intro h
    rw [updSpiked, if_neg h]

/-- C8: the incremental step restarts its time base every tick: for the same
draws, the trailing 5 samples of the updated buffers do not depend on the
engine state at all (any two well-formed states give identical tails), those
tails are exactly the newPoints of the tick, and the new points read their
phase argument from the fixed window linspace(0, 2*pi, 5), not from a
continuation of the initial fill's axis. -/
theorem C8_restart_time_base (g : Nat → R) (ix : Nat) (s1 s2 : ECGData R)
    (h1 : WF s1) (h2 : WF s2) (j : Nat) :
    (((ECGData.update_data sinv piv g ix s1).data.get? j).map
        fun e => e.2.drop 495) =
      (((ECGData.update_data sinv piv g ix s2).data.get? j).map
        fun e => e.2.drop 495) ∧
    (∀ name buf, s1.data.get? j = some (name, buf) →
      ((ECGData.update_data sinv piv g ix s1).data.get? j).map
          (fun e => e.2.drop 495) =
        some (newPoints sinv piv g (ix + 6 * j) (leadNumOf name))) ∧
    ∀ num : Nat, newPoints sinv piv g (ix + 6 * j) num =
      ((if g (ix + 6 * j) < 0.1 then
          addAt ((linspace (0 : R) (2 * piv) 5).map fun t =>
            sinv (t * (updParams piv num).1 + (updParams piv num).2.2) *
              (updParams piv num).2.1) 2 (spikeMag (R := R) num)
        else (linspace (0 : R) (2 * piv) 5).map fun t =>
          sinv (t * (updParams piv num).1 + (updParams piv num).2.2) *
            (updParams piv num).2.1)).zipWith (· + ·)
        (updNoise g (ix + 6 * j)) := by
  refine ⟨?_, fun name buf hj => update_tail sinv piv g ix s1 h1 j name buf hj,
    fun num => rfl⟩
  cases hj1 : s1.data.get? j with
  | none =>
    have hlen1 : s1.data.length ≤ j := List.get?_eq_none.1 hj1
    have h12 : s2.data.length = s1.data.length := by
      have e1 : s1.data.length = officialLeads.length := by
        rw [← h1.1, List.length_map]
      have e2 : s2.data.length = officialLeads.length := by
        rw [← h2.1, List.length_map]
      rw [e1, e2]
    have g1 : (ECGData.update_data sinv piv g ix s1).data.get? j = none := by
      apply List.get?_eq_none.2
      show (updateLoop sinv piv g ix s1.data).length ≤ j
      rw [length_updateLoop]
      exact hlen1
    have g2 : (ECGData.update_data sinv piv g ix s2).data.get? j = none := by
      apply List.get?_eq_none.2
      show (updateLoop sinv piv g ix s2.data).length ≤ j
      rw [length_updateLoop, h12]
      exact hlen1
    rw [g1, g2]
  | some e =>
    obtain ⟨name, buf⟩ := e
    have ho1 : officialLeads.get? j = some name := by
      rw [← h1.1, List.get?_map, hj1]
      rfl
    cases hj2 : s2.data.get? j with
    | none =>
      exfalso
      have hno : officialLeads.get? j = none := by
        rw [← h2.1, List.get?_map, hj2]
        rfl
      rw [hno] at ho1
      exact Option.noConfusion ho1
    | some e2 =>
      obtain ⟨name2, buf2⟩ := e2
      have ho2 : officialLeads.get? j = some name2 := by
        rw [← h2.1, List.get?_map, hj2]
        rfl
      have hnm : name2 = name := by
        rw [ho1] at ho2
        exact (Option.some.inj ho2).symm
      rw [update_tail sinv piv g ix s1 h1 j name buf hj1,
        update_tail sinv piv g ix s2 h2 j name2 buf2 hj2, hnm]

/-- C10: each /update_ecg request performs exactly one tick before rendering:
get_plot_base64 never changes the state, the endpoint's final state is one
update_data application to the incoming state, and every one of the 12 plots
it returns is rendered from that same post-tick state. -/
theorem C10_endpoint_single_tick (g : Nat → R) (ix : Nat) (s : ECGData R) :
    (∀ i, (ECGData.get_plot_base64 s i).2 = s) ∧
    (update_ecg sinv piv g ix s).2 = ECGData.update_data sinv piv g ix s ∧
    (update_ecg sinv piv g ix s).1 = (List.range 12).map fun j =>
      (leadName (j + 1),
        (ECGData.get_plot_base64 (ECGData.update_data sinv piv g ix s) (j + 1)).1) :=
  ⟨fun i => rfl, rfl, rfl⟩

/-- C9: the engine is deterministic with no hidden state: the buffers after
any number of ticks are a function of the starting state and of exactly the
random draws consumed (6 per channel per tick); two runs whose random streams
agree on those draws produce identical channel buffers after every tick
count. -/
theorem C9_determinism (n : Nat) (g g' : Nat → R) (ix : Nat) (s : ECGData R)
    (h : ∀ j, j < 6 * s.data.length * n → g (ix + j) = g' (ix + j)) :
    runTicks sinv piv g ix s n = runTicks sinv piv g' ix s n := by
  induction n generalizing ix s with
  | zero => rfl
  | succ n ih =>
    have hstep : ECGData.update_data sinv piv g ix s =
        ECGData.update_data sinv piv g' ix s := by
      have hcongr := updateLoop_congr sinv piv g g' ix s.data (fun j hj =>
        h j (lt_of_lt_of_le hj (Nat.le_mul_of_pos_right _ n.succ_pos)))
      show ECGData.mk (updateLoop sinv piv g ix s.data) =
        ECGData.mk (updateLoop sinv piv g' ix s.data)
      rw [hcongr]
    show runTicks sinv piv g (ix + 6 * s.data.length)
        (ECGData.update_data sinv piv g ix s) n =
      runTicks sinv piv g' (ix + 6 * s.data.length)
        (ECGData.update_data sinv piv g' ix s) n
    rw [hstep]
    apply ih
    intro j hj
    rw [show (ECGData.update_data sinv piv g' ix s).data.length = s.data.length
      from length_updateLoop sinv piv g' ix s.data] at hj
    have hb : 6 * s.data.length + j < 6 * s.data.length * (n + 1) := by
      rw [Nat.mul_succ, Nat.add_comm (6 * s.data.length * n) (6 * s.data.length)]
      exact Nat.add_lt_add_left hj (6 * s.data.length)
    have hv := h (6 * s.data.length + j) hb
    rw [Nat.add_assoc]
    exact hv

/-! Witnesses and counterexamples at the concrete instantiation. -/

/-- Witness for C2 at a concrete input: the update of the constructor's
initial dict at position 0 (lead_1). -/
theorem C2_fifo_roll_witness :
    ∃ buf2,
      (ECGData.update_data sinQ 0 gZero 0 (initState (R := ℚ))).data.get? 0 =
        some ("lead_1", buf2) ∧
      buf2.length = 500 ∧
      buf2.take 495 = (List.replicate 500 (0 : ℚ)).drop 5 ∧
      buf2.drop 495 = newPoints sinQ 0 gZero (0 + 6 * 0) (leadNumOf "lead_1") :=
  C2_fifo_roll sinQ 0 gZero 0 initState
    (of_decide_eq_true (by with_unfolding_all rfl)) 0 "lead_1"
    (List.replicate 500 0) (of_decide_eq_true (by with_unfolding_all rfl))

/-- Counterexample for C3 as stated: at a concrete well-formed state, one
/update_ecg call changes the engine state, and two consecutive calls return
different plot data. -/
theorem C3_endpoint_mutates_cex :
    (update_ecg sinQ 0 gZero 0 cexState).2 ≠ cexState ∧
    (update_ecg sinQ 0 gZero 0 cexState).1 ≠
      (update_ecg sinQ 0 gZero 72 ((update_ecg sinQ 0 gZero 0 cexState).2)).1 :=
  ⟨of_decide_eq_true (by with_unfolding_all rfl),
   of_decide_eq_true (by with_unfolding_all rfl)⟩

/-- Counterexample for C4 as stated: after update_data returns its reference,
one more tick changes the values observed through that same reference. -/
theorem C4_aliasing_cex :
    deref (ECGData.update_data sinQ 0 gZero 72
        ((cexState.update_data_full sinQ 0 gZero 0).2))
      (cexState.update_data_full sinQ 0 gZero 0).1 ≠
    deref ((cexState.update_data_full sinQ 0 gZero 0).2)
      (cexState.update_data_full sinQ 0 gZero 0).1 :=
  of_decide_eq_true (by with_unfolding_all rfl)

/-- Witness for C5 at a concrete input: the constructor's dict is well formed,
so one update tick of it is well formed too. -/
theorem C5_channel_invariant_witness :
    WF (ECGData.update_data sinQ 0 gZero 0 (initState (R := ℚ))) :=
  ((C5_channel_invariant sinQ 0).2 gZero 0 initState).2
    (of_decide_eq_true (by with_unfolding_all rfl))

/-- Witness for C7 at a concrete input: the zero stream's uniform draw is
below the threshold, so lead 5 gets the spike added at index 2. -/
theorem C7_spike_structure_witness :
    (updSpiked sinQ 0 gZero 0 5).get? 2 =
      ((updBase sinQ 0 5).get? 2).map (fun b => b + spikeMag (R := ℚ) 5) :=
  ((C7_spike_structure sinQ 0 gZero 0 5).2.2.1
    (of_decide_eq_true (by with_unfolding_all rfl))).1

/-- Witness for C8 at concrete inputs: two different well-formed states (the
zero dict and the all-ones dict) produce identical trailing samples under the
same draws, and those samples are this tick's newPoints for lead_1. -/
theorem C8_restart_time_base_witness :
    ((((ECGData.update_data sinQ 0 gZero 0 (initState (R := ℚ))).data.get? 0).map
        fun e => e.2.drop 495) =
      (((ECGData.update_data sinQ 0 gZero 0 onesState).data.get? 0).map
        fun e => e.2.drop 495)) ∧
    (((ECGData.update_data sinQ 0 gZero 0 (initState (R := ℚ))).data.get? 0).map
        fun e => e.2.drop 495) =
      some (newPoints sinQ 0 gZero (0 + 6 * 0) (leadNumOf "lead_1")) := by
  have h := C8_restart_time_base sinQ 0 gZero 0 initState onesState
    (of_decide_eq_true (by with_unfolding_all rfl))
    (of_decide_eq_true (by with_unfolding_all rfl)) 0
  exact ⟨h.1, h.2.1 "lead_1" (List.replicate 500 0)
    (of_decide_eq_true (by with_unfolding_all rfl))⟩

/-- Witness for C9 at concrete inputs: gZero and gOne agree on the 72 draws of
one tick (and nowhere beyond draw 100), so one tick from the initial dict
gives identical states. -/
theorem C9_determinism_witness :
    runTicks sinQ 0 gZero 0 (initState (R := ℚ)) 1 =
      runTicks sinQ 0 gOne 0 (initState (R := ℚ)) 1 :=
  C9_determinism sinQ 0 1 gZero gOne 0 initState (fun j hj => by
    have hj72 : j < 72 := by simpa [initState] using hj
    show gZero (0 + j) = gOne (0 + j)
    simp only [gZero, gOne]
    rw [if_pos (by omega : 0 + j < 100)])

end Engine

end ECG

